import Mathlib

/-!
Shallow embedding of the stonk-chart repository (src/data.py, src/cache.py,
src/news.py, src/llm.py) and verification of its specification claims.

Prices and percentages are modelled as exact rationals; the pandas
`DatetimeIndex` is abstracted to natural-number day labels in increasing
order (index `i` is the `i`-th trading day of the series).
-/

/-- Python's `round` to an integer: round half to even (banker's rounding). -/
def round_half_even (q : ℚ) : ℤ :=
  let n : ℤ := ⌊q⌋
  let f : ℚ := q - n
  if f < 1/2 then n
  else if 1/2 < f then n + 1
  else if n % 2 = 0 then n else n + 1

/-- Python's `round(x, 2)` used in `_make_span` for the span's `pct` field. -/
def round2 (q : ℚ) : ℚ := (round_half_even (q * 100) : ℚ) / 100

/-- A span record as produced by `find_extreme_moves` in src/data.py:
dict with keys start_date, end_date, date, price, pct, days; the keys
`event` and `headlines` are absent (`none`) until enrichment adds them. -/
structure SpanRec where
  start_date : Nat
  end_date : Nat
  date : Nat
  price : ℚ
  pct : ℚ
  days : Nat
  event : Option String := none
  headlines : Option (List String) := none
deriving Repr, DecidableEq

/-- `df["Close"]` lookup by positional day label. -/
def get_close (c : List ℚ) (i : Nat) : ℚ := c.getD i 0

/-- `df["Close"].pct_change() * 100` at day `i` (defined for `i ≥ 1`). -/
def daily_pct (c : List ℚ) (i : Nat) : ℚ :=
  (get_close c i - get_close c (i - 1)) / get_close c (i - 1) * 100

/-- `_make_span` from src/data.py: build a span record from start/end labels. -/
def make_span (c : List ℚ) (s e : Nat) : SpanRec :=
  let close_before := get_close c (s - 1)
  let close_end := get_close c e
  let pct := (close_end - close_before) / close_before * 100
  { start_date := s
    end_date := e
    date := e
    price := close_end
    pct := round2 pct
    days := e - s + 1 }

/-- The mutable loop state of `find_extreme_moves`:
`spans`, `span_start`, `prev_sign`, `prev_idx`. -/
structure SegState where
  spans : List SpanRec
  span_start : Option Nat
  prev_sign : ℤ
  prev_idx : Nat
deriving Repr, DecidableEq

/-- One iteration of the `for idx, pct_val in daily_pct.items()` loop in
`find_extreme_moves` (src/data.py lines 84–103). -/
def seg_step (c : List ℚ) (noise_pct : ℚ) (st : SegState) (idx : Nat) (pct_val : ℚ) :
    SegState :=
  if pct_val = 0 then st
  else
    let sign : ℤ := if 0 < pct_val then 1 else -1
    if sign ≠ st.prev_sign ∧ st.prev_sign ≠ 0 then
      if |pct_val| ≤ noise_pct then
        { st with prev_idx := idx }
      else
        let spans' := match st.span_start with
          | some s => st.spans ++ [make_span c s st.prev_idx]
          | none => st.spans
        { spans := spans', span_start := some idx, prev_sign := sign, prev_idx := idx }
    else
      let ss := match st.span_start with
        | none => some idx
        | some s => some s
      { st with span_start := ss, prev_sign := sign, prev_idx := idx }

/-- The chronological span list built by the loop of `find_extreme_moves`
(state after the loop plus the "close last span" step), before threshold
filtering and ranking. -/
def find_spans (c : List ℚ) (noise_pct : ℚ) : List SpanRec :=
  let st := (List.range' 1 (c.length - 1)).foldl
    (fun st i => seg_step c noise_pct st i (daily_pct c i))
    ⟨[], none, 0, 0⟩
  match st.span_start with
  | some s => st.spans ++ [make_span c s st.prev_idx]
  | none => st.spans

/-- The descending-|pct| ordering used by `spans.sort(key=..., reverse=True)`. -/
def span_ge (a b : SpanRec) : Prop := |b.pct| ≤ |a.pct|

instance : DecidableRel span_ge := fun a b => inferInstanceAs (Decidable (_ ≤ _))

instance : IsTotal SpanRec span_ge := ⟨fun _ _ => le_total _ _⟩

instance : IsTrans SpanRec span_ge := ⟨fun _ _ _ h1 h2 => le_trans h2 h1⟩

/-- `find_extreme_moves` from src/data.py: segment, filter by `min_pct`,
stable-sort by `|pct|` descending, optionally truncate to `top_n`.
(Python's list sort is stable also under `reverse=True`, so it coincides
with insertion sort by the ≽ relation `span_ge`.) -/
def find_extreme_moves (c : List ℚ) (min_pct : ℚ) (top_n : Option Nat)
    (noise_pct : ℚ) : List SpanRec :=
  let spans := (find_spans c noise_pct).filter (fun s => min_pct ≤ |s.pct|)
  let sorted := spans.insertionSort span_ge
  match top_n with
  | some n => sorted.take n
  | none => sorted

/-! ## Annotation store (src/cache.py) -/

/-- The persisted value of one annotation-store entry: `{event, headlines}`. -/
structure AnnRecord where
  event : String
  headlines : List String
deriving Repr, DecidableEq

/-- The parsed content of `cache/{TICKER}_annotations.json`: a mapping keyed
by `"start_date|end_date"` (modelled as the pair of dates — the string key
is injective in the two dates). Python dicts preserve insertion order, so
the mapping is an ordered association list with distinct keys. -/
abbrev Store := List ((Nat × Nat) × AnnRecord)

/-- Python `dict.get` on the store. -/
def store_lookup : Store → Nat × Nat → Option AnnRecord
  | [], _ => none
  | (k, v) :: rest, key => if k = key then some v else store_lookup rest key

/-- Python `store[key] = value`: replace in place if present, append if not. -/
def store_insert : Store → Nat × Nat → AnnRecord → Store
  | [], key, v => [(key, v)]
  | (k, w) :: rest, key, v =>
    if k = key then (k, v) :: rest else (k, w) :: store_insert rest key v

/-- `_span_key` from src/cache.py. -/
def span_key (rec : SpanRec) : Nat × Nat := (rec.start_date, rec.end_date)

/-- The state of `cache/{TICKER}_annotations.json` on disk. -/
inductive AnnFile where
  | missing
  | corrupt
  | valid (store : Store)
deriving Repr, DecidableEq

/-- `_load_annotations_store` from src/cache.py: a missing file yields `{}`;
on an existing file the content is handed to `json.load`, which raises on
unparsable content (modelled as `Except.error`). -/
def load_annotations_store : AnnFile → Except Unit Store
  | .missing => .ok []
  | .corrupt => .error ()
  | .valid s => .ok s

/-- `get_cached_annotation` from src/cache.py. -/
def get_cached_ann (file : AnnFile) (rec : SpanRec) :
    Except Unit (Option AnnRecord) := do
  let store ← load_annotations_store file
  return store_lookup store (span_key rec)

/-- `save_annotation` from src/cache.py: load the store, upsert
`{event: rec.get("event", ""), headlines: rec.get("headlines", [])}` under
the span key, write the file back. -/
def save_ann (file : AnnFile) (rec : SpanRec) : Except Unit AnnFile := do
  let store ← load_annotations_store file
  return .valid (store_insert store (span_key rec)
    ⟨rec.event.getD "", rec.headlines.getD []⟩)

/-! ## News lookup and summarisation (src/news.py, src/llm.py) -/

/-- A DuckDuckGo news result (`{title, body, url, date, source}`). -/
structure Headline where
  title : String
  body : String
  url : String
  date : String
  source : String
deriving Repr, DecidableEq

/-- Behaviour of the external DuckDuckGo endpoint: given the query string and
`max_results`, either raise (`error`) or return a result list. -/
def DdgsOracle := String → Nat → Except Unit (List Headline)

/-- Behaviour of the external g4f completion endpoint: given the prompt and
the attempt number, either raise or return the message content (the empty
string models falsy/absent content). -/
def LlmOracle := String → Nat → Except Unit String

/-- `search_news` from src/news.py: build the query, call DuckDuckGo, and
convert any raised failure into an empty result list. -/
def search_news (ddgs : DdgsOracle) (company_name : String) (date : String)
    (max_results : Nat := 5) : List Headline :=
  let query := company_name ++ " stock " ++ date
  match ddgs query max_results with
  | .ok results => results
  | .error _ => []

/-- Python `f"{q:.1f}"` for `q ≥ 0`: one decimal, round half to even. -/
def format_1f (q : ℚ) : String :=
  let n := (round_half_even (q * 10)).toNat
  toString (n / 10) ++ "." ++ toString (n % 10)

/-- Python `f"{q:+.1f}"` on an exact rational: explicit sign, then the
magnitude rounded to one decimal. A negative value keeps its `-` sign even
when it rounds to 0.0, matching float formatting of negative zero. -/
def format_signed_1f (q : ℚ) : String :=
  (if q < 0 then "-" else "+") ++ format_1f |q|

/-- `_build_llm_prompt` from src/news.py. -/
def build_llm_prompt (company_name ticker date : String) (pct_change : ℚ)
    (news_items : List Headline) : String :=
  let direction := if 0 < pct_change then "rose" else "dropped"
  let headlines := String.intercalate "\n"
    (news_items.map (fun item => "- " ++ item.title ++ " (" ++ item.source ++ ")"))
  company_name ++ " (" ++ ticker ++ ") stock " ++ direction ++ " "
    ++ format_1f |pct_change| ++ "% around " ++ date ++ ".\n\n"
    ++ "Here are relevant news headlines:\n" ++ headlines ++ "\n\n"
    ++ "In ≤10 words, summarise the most likely cause of this price move. "
    ++ "Reply ONLY with the summary, no extra text."

/-- `_MAX_BODY_CHARS` from src/llm.py. -/
def MAX_BODY_CHARS : Nat := 300

/-- `_build_prompt` from src/llm.py (body snippets truncated with an
ellipsis marker). -/
def build_prompt (company_name ticker date : String) (pct_change : ℚ)
    (news_items : List Headline) : String :=
  let direction := if 0 < pct_change then "rose" else "dropped"
  let news_blocks := news_items.map (fun item =>
    let title := item.title.trim
    let body := item.body.trim
    if body ≠ "" then
      let body_snippet :=
        if MAX_BODY_CHARS < body.length then body.take MAX_BODY_CHARS ++ "…"
        else body.take MAX_BODY_CHARS
      "[" ++ item.source ++ "] " ++ title ++ "\n  " ++ body_snippet
    else "[" ++ item.source ++ "] " ++ title)
  let news_text := String.intercalate "\n\n" news_blocks
  "On " ++ date ++ ", " ++ company_name ++ " (" ++ ticker ++ ") stock "
    ++ direction ++ " " ++ format_1f |pct_change| ++ "%.\n\n"
    ++ "Your task: identify the ROOT CAUSE of this price move based on the news below.\n\n"
    ++ "News articles:\n" ++ news_text ++ "\n\n"
    ++ "Instructions:\n"
    ++ "- Focus on the specific event, announcement, or factor that most directly caused the move.\n"
    ++ "- If multiple causes, pick the most impactful one.\n"
    ++ "- Reply in ≤10 words. No intro, no explanation, just the cause.\n"
    ++ "Cause:"

/-- Python `text.strip().strip('"')`. -/
def strip_quotes (s : String) : String :=
  String.mk (((s.trim.data.dropWhile (· = '"')).reverse.dropWhile (· = '"')).reverse)

/-- Python `" ".join(text.strip().strip('"').split()[:12])`. -/
def clip_words (text : String) : String :=
  String.intercalate " "
    ((((strip_quotes text).split (fun c => c.isWhitespace)).filter (· ≠ "")).take 12)

/-- The provider retry loop shared by `summarise_with_llm` (src/news.py) and
`summarise` (src/llm.py): up to `remaining` further attempts; the first
non-empty content is clipped to 12 words and returned (the trailing sanity
check in the source ends in `or True`, so any non-empty content is
accepted). Also returns the number of completion-service invocations. -/
def llm_attempt_loop (client : LlmOracle) (prompt : String) :
    Nat → Nat → Option String × Nat
  | _, 0 => (none, 0)
  | attempt, remaining + 1 =>
    match client prompt attempt with
    | .ok text =>
      if text ≠ "" then (some (clip_words text), 1)
      else
        let r := llm_attempt_loop client prompt (attempt + 1) remaining
        (r.1, r.2 + 1)
    | .error _ =>
      let r := llm_attempt_loop client prompt (attempt + 1) remaining
      (r.1, r.2 + 1)

/-- `summarise_with_llm` from src/news.py, instrumented with the number of
completion-service calls made. Returns `none` immediately on an empty
`news_items` list, before any client interaction. -/
def summarise_with_llm (client : LlmOracle) (company_name ticker date : String)
    (pct_change : ℚ) (news_items : List Headline) (retries : Nat := 3) :
    Option String × Nat :=
  if news_items = [] then (none, 0)
  else
    llm_attempt_loop client
      (build_llm_prompt company_name ticker date pct_change news_items) 1 retries

/-- `summarise` from src/llm.py, instrumented with the number of
completion-service calls made. -/
def summarise (client : LlmOracle) (company_name ticker date : String)
    (pct_change : ℚ) (news_items : List Headline) (retries : Nat := 3) :
    Option String × Nat :=
  if news_items = [] then (none, 0)
  else
    llm_attempt_loop client
      (build_prompt company_name ticker date pct_change news_items) 1 retries

/-- The synthetic fallback label `f"{rec['pct']:+.1f}% move"`. -/
def fallback_label (pct : ℚ) : String := format_signed_1f pct ++ "% move"

/-- Python `summary or fallback`: `None` and `""` both fall back. -/
def py_or_else (summary : Option String) (fallback : String) : String :=
  match summary with
  | some s => if s = "" then fallback else s
  | none => fallback

/-- The outcome of processing one record in `annotate_events`: the enriched
record plus how many News Lookup (DuckDuckGo) and Summarizer
(completion-service) calls were made for this span. -/
structure StepResult where
  record : SpanRec
  search_calls : Nat
  llm_calls : Nat
deriving Repr, DecidableEq

/-- One iteration of the `for i, rec in enumerate(records, 1)` loop of
`annotate_events` (src/news.py lines 128–155), over a parseable store:
cache hit populates `event`/`headlines` from the stored record; cache miss
searches news, keeps the first 3 titles, summarises, falls back to the
synthetic label, and persists `{event, headlines}`. -/
def process_record (ddgs : DdgsOracle) (client : LlmOracle)
    (company_name ticker : String) (store : Store) (rec : SpanRec) :
    StepResult × Store :=
  match store_lookup store (span_key rec) with
  | some cached =>
    (⟨{ rec with event := some cached.event, headlines := some cached.headlines },
        0, 0⟩,
      store)
  | none =>
    let news := search_news ddgs company_name (toString rec.start_date)
    let headlines := (news.take 3).map (·.title)
    let s := summarise_with_llm client company_name ticker
      (toString rec.start_date) rec.pct news
    let event := py_or_else s.1 (fallback_label rec.pct)
    let rec' := { rec with event := some event, headlines := some headlines }
    (⟨rec', 1, s.2⟩, store_insert store (span_key rec') ⟨event, headlines⟩)

/-- The record loop of `annotate_events`, threading the store. -/
def annotate_go (ddgs : DdgsOracle) (client : LlmOracle)
    (company_name ticker : String) :
    List SpanRec → Store → List StepResult × Store
  | [], store => ([], store)
  | rec :: rest, store =>
    let p := process_record ddgs client company_name ticker store rec
    let r := annotate_go ddgs client company_name ticker rest p.2
    (p.1 :: r.1, r.2)

/-- `annotate_events` from src/news.py, modelled over a parseable annotation
store (the `AnnFile.valid`/`AnnFile.missing` cases, under which every
per-record `get_cached_annotation`/`save_annotation` reduces to
`store_lookup`/`store_insert` on the threaded store). Returns the
per-record step results (the enriched record in order, with the
external-call counts for that span) and the final store.
`company_name = none` defaults to the ticker. -/
def annotate_events (ddgs : DdgsOracle) (client : LlmOracle)
    (records : List SpanRec) (ticker : String) (company_name : Option String)
    (store : Store) : List StepResult × Store :=
  annotate_go ddgs client (company_name.getD ticker) ticker records store

/-! ## Analysis predicates and concrete fixtures -/

/-- The direction of the daily change at day `i`: `1` up, `-1` down, `0` flat. -/
def day_sign (c : List ℚ) (i : Nat) : ℤ :=
  if 0 < daily_pct c i then 1 else if daily_pct c i < 0 then -1 else 0

/-- Days `s..e` form a directional run of sign `σ`: the endpoint days move
with sign `σ` and every day in between moves with sign `σ` or is flat. -/
def run_ok (c : List ℚ) (s e : Nat) (σ : ℤ) : Prop :=
  s ≤ e ∧ σ ≠ 0 ∧ day_sign c s = σ ∧ day_sign c e = σ ∧
    ∀ j, s ≤ j → j ≤ e → day_sign c j = σ ∨ day_sign c j = 0

/-- Loop invariant of the `find_extreme_moves` segmentation loop with
`noise_pct = 0`, relative to the next index `i` to be processed. -/
def seg_invariant (c : List ℚ) (i : Nat) (st : SegState) : Prop :=
  (st.prev_sign = 0 ∧ st.span_start = none ∧ st.spans = []) ∨
  (∃ s, st.span_start = some s ∧ st.prev_sign ≠ 0 ∧ st.prev_idx < i ∧
    run_ok c s st.prev_idx st.prev_sign ∧
    (∀ j, st.prev_idx < j → j < i → daily_pct c j = 0) ∧
    (∀ sp ∈ st.spans, run_ok c sp.start_date sp.end_date (day_sign c sp.start_date)) ∧
    st.spans.Chain' (fun a b => day_sign c b.start_date = -day_sign c a.start_date) ∧
    (∀ lsp, st.spans.getLast? = some lsp →
      day_sign c lsp.start_date = -st.prev_sign))

/-- Daily changes +2%, −0.5%, +3%, −6% (spec's noise-absorption example). -/
def example_closes : List ℚ := [100, 102, 10149/100, 1045347/10000, 98262618/1000000]

/-- Daily changes +10%, 0%, +10%, −5%, +10%: segmentation yields spans
days 1–3 (+21%, with a flat internal day), day 4 (−5%), day 5 (+10%). -/
def cex_closes : List ℚ := [100, 110, 110, 121, 2299/20, 25289/200]

/-- A concrete span record used for instantiating cache claims. -/
def sample_rec : SpanRec :=
  { start_date := 1, end_date := 2, date := 2, price := 100, pct := 5, days := 2 }

/-- A record carrying an enrichment result, for the round-trip witness. -/
def saved_rec : SpanRec :=
  { start_date := 3, end_date := 7, date := 7, price := 50, pct := -123/10, days := 5,
    event := some "Earnings miss", headlines := some ["guidance cut"] }

/-- A query for the same span as `saved_rec` but with different
`pct`/`price`/`days`/`date` values. -/
def query_rec : SpanRec :=
  { start_date := 3, end_date := 7, date := 9, price := 51, pct := 4, days := 99 }

/-! ## Store lemmas -/

theorem store_lookup_insert_self (s : Store) (k : Nat × Nat) (v : AnnRecord) :
    store_lookup (store_insert s k v) k = some v := by
  induction s with
  | nil => simp [store_insert, store_lookup]
  | cons hd tl ih =>
    obtain ⟨k', w⟩ := hd
    by_cases h : k' = k
    · simp [store_insert, store_lookup, h]
    · simp [store_insert, store_lookup, h, ih]

theorem store_lookup_insert_ne (s : Store) (k k' : Nat × Nat) (v : AnnRecord)
    (h : k ≠ k') : store_lookup (store_insert s k v) k' = store_lookup s k' := by
  induction s with
  | nil => simp [store_insert, store_lookup, h]
  | cons hd tl ih =>
    obtain ⟨k'', w⟩ := hd
    by_cases h2 : k'' = k
    · subst h2
      simp [store_insert, store_lookup, h]
    · simp [store_insert, store_lookup, h2, ih]

/-! ## C9 -/

/-- C9: both Summarizer entry points — `summarise_with_llm` (src/news.py)
and `summarise` (src/llm.py) — called with an empty headline list return
absent (`none`) immediately and make zero completion-service calls, for
every company name, ticker, date, percentage change, retry count and
external-service behaviour. -/
theorem summarise_empty_headlines_short_circuit
    (client : LlmOracle) (company_name ticker date : String) (pct : ℚ)
    (retries : Nat) :
    summarise_with_llm client company_name ticker date pct [] retries = (none, 0) ∧
    summarise client company_name ticker date pct [] retries = (none, 0) :=
  ⟨rfl, rfl⟩

/-! ## C4 -/

/-- C4, counterexample: an annotation-store read from a corrupt
(unparsable) file is **not** treated as a cache miss — `json.load` raises,
and `get_cached_annotation` propagates the error instead of returning
absent. -/
theorem corrupt_store_read_raises :
    get_cached_ann AnnFile.corrupt sample_rec = Except.error () ∧
    ∀ o : Option AnnRecord,
      get_cached_ann AnnFile.corrupt sample_rec ≠ Except.ok o := by
  refine ⟨rfl, fun o h => ?_⟩
  rw [show get_cached_ann AnnFile.corrupt sample_rec = Except.error ()
    from rfl] at h
  exact Except.noConfusion h

/-- C4 (amended): an annotation-store read with a **missing** annotation
file returns absent (a cache miss) rather than raising, for every query
record; a **corrupt** (unparseable) file instead propagates the parse
error. -/
theorem missing_store_read_is_miss (rec : SpanRec) :
    get_cached_ann AnnFile.missing rec = Except.ok none ∧
    get_cached_ann AnnFile.corrupt rec = Except.error () :=
  ⟨rfl, rfl⟩

/-! ## C6 -/

/-- C6: `save_annotation` followed by `get_cached_annotation` for any query
with the same `(start_date, end_date)` returns exactly the persisted
`{event, headlines}` of the saved record, regardless of the `pct`, `price`,
`days` (or `date`) values carried by the query. -/
theorem cache_round_trip (file file' : AnnFile) (r q : SpanRec)
    (hs : q.start_date = r.start_date) (he : q.end_date = r.end_date)
    (hsave : save_ann file r = Except.ok file') :
    get_cached_ann file' q =
      Except.ok (some ⟨r.event.getD "", r.headlines.getD []⟩) := by
  have hkey : span_key q = span_key r := by
    simp [span_key, hs, he]
  cases file with
  | corrupt => exact absurd hsave (by simp [save_ann, load_annotations_store])
  | missing =>
    have : file' = AnnFile.valid (store_insert [] (span_key r)
        ⟨r.event.getD "", r.headlines.getD []⟩) := by
      simpa [save_ann, load_annotations_store] using hsave.symm
    subst this
    simp [get_cached_ann, load_annotations_store, hkey,
      store_lookup_insert_self]
  | valid s =>
    have : file' = AnnFile.valid (store_insert s (span_key r)
        ⟨r.event.getD "", r.headlines.getD []⟩) := by
      simpa [save_ann, load_annotations_store] using hsave.symm
    subst this
    simp [get_cached_ann, load_annotations_store, hkey,
      store_lookup_insert_self]

/-- C6 witness at a concrete store, record and differing query. -/
theorem cache_round_trip_witness :
    query_rec.start_date = saved_rec.start_date ∧
    query_rec.end_date = saved_rec.end_date ∧
    save_ann AnnFile.missing saved_rec =
      Except.ok (AnnFile.valid [((3, 7), ⟨"Earnings miss", ["guidance cut"]⟩)]) ∧
    get_cached_ann
        (AnnFile.valid [((3, 7), ⟨"Earnings miss", ["guidance cut"]⟩)]) query_rec =
      Except.ok (some ⟨"Earnings miss", ["guidance cut"]⟩) :=
  ⟨rfl, rfl, rfl,
    cache_round_trip AnnFile.missing _ saved_rec query_rec rfl rfl rfl⟩

/-! ## C10 -/

theorem process_record_frame (ddgs : DdgsOracle) (client : LlmOracle)
    (company_name ticker : String) (store : Store) (rec : SpanRec) :
    (process_record ddgs client company_name ticker store rec).1.record.start_date
        = rec.start_date ∧
    (process_record ddgs client company_name ticker store rec).1.record.end_date
        = rec.end_date ∧
    (process_record ddgs client company_name ticker store rec).1.record.date
        = rec.date ∧
    (process_record ddgs client company_name ticker store rec).1.record.price
        = rec.price ∧
    (process_record ddgs client company_name ticker store rec).1.record.pct
        = rec.pct ∧
    (process_record ddgs client company_name ticker store rec).1.record.days
        = rec.days := by
  cases h : store_lookup store (span_key rec) <;>
    simp [process_record, h]

/-- C10: `annotate_events` returns exactly as many records as it was given,
in the same order, and each output record agrees with its input record on
`start_date`, `end_date`, `date`, `price`, `pct` and `days` — only the
`event` and `headlines` keys are (re)assigned. -/
theorem annotate_frame_condition (ddgs : DdgsOracle) (client : LlmOracle)
    (records : List SpanRec) (ticker : String) (company_name : Option String)
    (store : Store) :
    List.Forall₂ (fun out inp =>
        out.record.start_date = inp.start_date ∧
        out.record.end_date = inp.end_date ∧
        out.record.date = inp.date ∧
        out.record.price = inp.price ∧
        out.record.pct = inp.pct ∧
        out.record.days = inp.days)
      (annotate_events ddgs client records ticker company_name store).1 records := by
  unfold annotate_events
  induction records generalizing store with
  | nil => exact List.Forall₂.nil
  | cons rec rest ih =>
    exact List.Forall₂.cons
      (process_record_frame ddgs client (company_name.getD ticker) ticker store rec)
      (ih _)

/-! ## C3 -/

theorem process_record_preserves (ddgs : DdgsOracle) (client : LlmOracle)
    (company_name ticker : String) (store : Store) (rec : SpanRec)
    (k : Nat × Nat) (v : AnnRecord) (h : store_lookup store k = some v) :
    store_lookup (process_record ddgs client company_name ticker store rec).2 k
      = some v := by
  cases hc : store_lookup store (span_key rec) with
  | some cached => simpa [process_record, hc] using h
  | none =>
    have hne : (rec.start_date, rec.end_date) ≠ k := fun he => by
      rw [show span_key rec = (rec.start_date, rec.end_date) from rfl, he, h] at hc
      exact Option.noConfusion hc
    have hc' : store_lookup store (rec.start_date, rec.end_date) = none := hc
    simpa [process_record, hc', span_key,
      store_lookup_insert_ne _ _ _ _ hne] using h

theorem annotate_go_cache_hit (ddgs : DdgsOracle) (client : LlmOracle)
    (company_name ticker : String) :
    ∀ (records : List SpanRec) (store : Store) (i : Nat) (rec : SpanRec)
      (v : AnnRecord), records[i]? = some rec →
      store_lookup store (span_key rec) = some v →
      (annotate_go ddgs client company_name ticker records store).1[i]? =
        some ⟨{ rec with event := some v.event, headlines := some v.headlines },
          0, 0⟩
  | [], _, i, _, _, hrec, _ => by simp at hrec
  | r :: rest, store, 0, rec, v, hrec, hhit => by
    have : r = rec := by simpa using hrec
    subst this
    simp [annotate_go, process_record, hhit]
  | r :: rest, store, i + 1, rec, v, hrec, hhit => by
    have hrec' : rest[i]? = some rec := by simpa using hrec
    have := annotate_go_cache_hit ddgs client company_name ticker rest
      (process_record ddgs client company_name ticker store r).2 i rec v hrec'
      (process_record_preserves ddgs client company_name ticker store r
        (span_key rec) v hhit)
    simpa [annotate_go] using this

/-- C3: if the annotation store already contains an entry for the
`(start_date, end_date)` key of the `i`-th span, then `annotate_events`
populates that span's `event` and `headlines` from the stored record and
makes no News Lookup call and no Summarizer call for that span (the span's
step counters are both 0) — for every instrument, external-service
behaviour, record list and position. -/
theorem annotate_cache_hit_no_external_calls
    (ddgs : DdgsOracle) (client : LlmOracle) (records : List SpanRec)
    (ticker : String) (company_name : Option String) (store : Store)
    (i : Nat) (rec : SpanRec) (v : AnnRecord)
    (hrec : records[i]? = some rec)
    (hhit : store_lookup store (span_key rec) = some v) :
    (annotate_events ddgs client records ticker company_name store).1[i]? =
      some ⟨{ rec with event := some v.event, headlines := some v.headlines },
        0, 0⟩ :=
  annotate_go_cache_hit ddgs client (company_name.getD ticker) ticker records
    store i rec v hrec hhit

/-- C3 witness: a one-record run against a pre-populated store, with
always-failing external services, is served entirely from the store. -/
theorem annotate_cache_hit_no_external_calls_witness :
    ([sample_rec][0]? = some sample_rec) ∧
    store_lookup [((1, 2), ⟨"CPI print", ["h1", "h2"]⟩)] (span_key sample_rec)
      = some ⟨"CPI print", ["h1", "h2"]⟩ ∧
    (annotate_events (fun _ _ => Except.error ()) (fun _ _ => Except.error ())
        [sample_rec] "ACME" none
        [((1, 2), ⟨"CPI print", ["h1", "h2"]⟩)]).1[0]? =
      some ⟨{ sample_rec with
                event := some "CPI print",
                headlines := some ["h1", "h2"] }, 0, 0⟩ :=
  ⟨rfl, rfl,
    annotate_cache_hit_no_external_calls (fun _ _ => Except.error ())
      (fun _ _ => Except.error ()) [sample_rec] "ACME" none
      [((1, 2), ⟨"CPI print", ["h1", "h2"]⟩)] 0 sample_rec
      ⟨"CPI print", ["h1", "h2"]⟩ rfl rfl⟩

/-! ## C5 -/

theorem annotate_go_length (ddgs : DdgsOracle) (client : LlmOracle)
    (company_name ticker : String) :
    ∀ (records : List SpanRec) (store : Store),
      (annotate_go ddgs client company_name ticker records store).1.length
        = records.length
  | [], _ => rfl
  | _ :: rest, store => by
    simp [annotate_go, annotate_go_length ddgs client company_name ticker rest]

/-- C5: a News Lookup failure never aborts the run. `search_news` converts
a raised DuckDuckGo failure into an empty result list; the Summarizer
short-circuits the empty list to an absent result without any
completion-service call; in `annotate_events` the affected cache-missed
span therefore ends with zero headlines and the synthetic fallback event
`f"{pct:+.1f}% move"`, and is still persisted; and the loop always
completes — it processes every record it was given. -/
theorem search_failure_degrades_to_fallback
    (ddgs : DdgsOracle) (client : LlmOracle) (company_name ticker date : String)
    (pct : ℚ) (retries max_results : Nat) (store : Store) (rec : SpanRec)
    (herr : ddgs (company_name ++ " stock " ++ date) max_results
      = Except.error ())
    (herr2 : ddgs (company_name ++ " stock " ++ toString rec.start_date) 5
      = Except.error ())
    (hmiss : store_lookup store (span_key rec) = none) :
    search_news ddgs company_name date max_results = [] ∧
    summarise_with_llm client company_name ticker date pct [] retries
      = (none, 0) ∧
    process_record ddgs client company_name ticker store rec =
      (⟨{ rec with
            event := some (fallback_label rec.pct),
            headlines := some [] }, 1, 0⟩,
        store_insert store (span_key rec) ⟨fallback_label rec.pct, []⟩) ∧
    (∀ (records : List SpanRec) (st : Store),
      (annotate_events ddgs client records ticker (some company_name) st).1.length
        = records.length) := by
  refine ⟨?_, rfl, ?_, ?_⟩
  · simp [search_news, herr]
  · have hnews : search_news ddgs company_name (toString rec.start_date) = [] := by
      simp [search_news, herr2]
    have hmiss' : store_lookup store (rec.start_date, rec.end_date) = none := hmiss
    simp [process_record, hmiss', hnews, summarise_with_llm, py_or_else, span_key]
  · intro records st
    exact annotate_go_length ddgs client company_name ticker records st

/-- C5 witness: concrete failing search service, empty store, one span. -/
theorem search_failure_degrades_to_fallback_witness :
    ((fun _ _ => Except.error ()) : DdgsOracle) ("ACME stock 2024-01-02") 4
      = Except.error () ∧
    ((fun _ _ => Except.error ()) : DdgsOracle) ("ACME stock " ++ toString sample_rec.start_date) 5
      = Except.error () ∧
    store_lookup [] (span_key sample_rec) = none ∧
    (search_news (fun _ _ => Except.error ()) "ACME" "2024-01-02" 4 = [] ∧
     summarise_with_llm (fun _ _ => Except.error ()) "ACME" "ACME" "2024-01-02"
       (5 : ℚ) [] 3 = (none, 0) ∧
     process_record (fun _ _ => Except.error ()) (fun _ _ => Except.error ())
       "ACME" "ACME" [] sample_rec =
       (⟨{ sample_rec with
             event := some (fallback_label sample_rec.pct),
             headlines := some [] }, 1, 0⟩,
         store_insert [] (span_key sample_rec)
           ⟨fallback_label sample_rec.pct, []⟩) ∧
     (∀ (records : List SpanRec) (st : Store),
       (annotate_events (fun _ _ => Except.error ()) (fun _ _ => Except.error ())
         records "ACME" (some "ACME") st).1.length = records.length)) :=
  ⟨rfl, rfl, rfl,
    search_failure_degrades_to_fallback (fun _ _ => Except.error ())
      (fun _ _ => Except.error ()) "ACME" "ACME" "2024-01-02" 5 3 4 [] sample_rec
      rfl rfl rfl⟩

/-! ## Stable-sort lemmas -/

section StableSortLemmas

variable {α : Type} (r : α → α → Prop) [DecidableRel r]

theorem orderedInsert_all (a : α) :
    ∀ l : List α, (∀ x ∈ l, r a x) → l.orderedInsert r a = a :: l
  | [], _ => rfl
  | b :: t, h => by
    rw [List.orderedInsert, if_pos (h b (List.mem_cons_self b t))]

theorem filter_orderedInsert_pos (tr : ∀ a b c, r a b → r b c → r a c)
    (p : α → Bool) (a : α) (ha : p a = true) :
    ∀ l : List α, l.Pairwise r →
      (l.orderedInsert r a).filter p = (l.filter p).orderedInsert r a
  | [], _ => by simp [List.orderedInsert, ha]
  | b :: t, hp => by
    rcases List.pairwise_cons.mp hp with ⟨hbt, htp⟩
    by_cases hr : r a b
    · have hall : ∀ x ∈ (b :: t).filter p, r a x := by
        intro x hx
        rcases List.mem_cons.mp (List.mem_of_mem_filter hx) with h1 | h1
        · exact h1 ▸ hr
        · exact tr _ _ _ hr (hbt x h1)
      rw [List.orderedInsert, if_pos hr, orderedInsert_all r a _ hall,
        List.filter_cons, if_pos ha]
    · rw [List.orderedInsert, if_neg hr]
      by_cases hb : p b
      · rw [List.filter_cons, if_pos hb, List.filter_cons, if_pos hb,
          List.orderedInsert, if_neg hr,
          filter_orderedInsert_pos tr p a ha t htp]
      · rw [List.filter_cons, if_neg (by simpa using hb), List.filter_cons,
          if_neg (by simpa using hb),
          filter_orderedInsert_pos tr p a ha t htp]

theorem filter_orderedInsert_neg (p : α → Bool) (a : α) (ha : p a = false) :
    ∀ l : List α, (l.orderedInsert r a).filter p = l.filter p
  | [] => by simp [List.orderedInsert, ha]
  | b :: t => by
    by_cases hr : r a b
    · rw [List.orderedInsert, if_pos hr, List.filter_cons,
        if_neg (by simp [ha])]
    · rw [List.orderedInsert, if_neg hr]
      by_cases hb : p b
      · rw [List.filter_cons, if_pos hb, List.filter_cons, if_pos hb,
          filter_orderedInsert_neg p a ha t]
      · rw [List.filter_cons, if_neg (by simpa using hb), List.filter_cons,
          if_neg (by simpa using hb), filter_orderedInsert_neg p a ha t]

theorem filter_insertionSort [IsTotal α r] [IsTrans α r] (p : α → Bool) :
    ∀ l : List α, (l.insertionSort r).filter p = (l.filter p).insertionSort r
  | [] => rfl
  | a :: t => by
    by_cases ha : p a
    · rw [List.insertionSort,
        filter_orderedInsert_pos r (fun _ _ _ h1 h2 => IsTrans.trans _ _ _ h1 h2)
          p a ha _ (List.sorted_insertionSort r t),
        filter_insertionSort p t, List.filter_cons, if_pos ha,
        List.insertionSort]
    · rw [List.insertionSort, filter_orderedInsert_neg r p a (by simpa using ha),
        filter_insertionSort p t, List.filter_cons, if_neg (by simpa using ha)]

omit [DecidableRel r] in
theorem filter_eq_takeWhile_of_sorted (p : α → Bool)
    (hup : ∀ a b, r a b → p b = true → p a = true) :
    ∀ l : List α, l.Pairwise r → l.filter p = l.takeWhile p
  | [], _ => rfl
  | a :: t, hp => by
    rcases List.pairwise_cons.mp hp with ⟨hat, htp⟩
    by_cases ha : p a
    · rw [List.filter_cons, if_pos ha, List.takeWhile_cons, if_pos ha,
        filter_eq_takeWhile_of_sorted p hup t htp]
    · have htnil : t.filter p = [] := by
        rw [List.filter_eq_nil_iff]
        intro x hx hpx
        exact ha (hup a x (hat x hx) hpx)
      rw [List.filter_cons, if_neg (by simpa using ha), List.takeWhile_cons,
        if_neg (by simpa using ha), htnil]

end StableSortLemmas

/-! ## C8 -/

/-- C8: with `top_n = none` the returned list is a permutation of the
threshold-filtered chronological span list, sorted by `|pct|` descending;
ties are kept in original chronological order — for every key value `k`,
the returned spans with `|pct| = k` appear exactly as in the pre-sort
sequence (stable sort); and with `top_n = some n` the result is the first
`n` elements of that sorted list. -/
theorem spans_sorted_stable_truncated (c : List ℚ) (min_pct noise_pct : ℚ) :
    List.Perm (find_extreme_moves c min_pct none noise_pct)
      ((find_spans c noise_pct).filter (fun s => min_pct ≤ |s.pct|)) ∧
    List.Pairwise span_ge (find_extreme_moves c min_pct none noise_pct) ∧
    (∀ k : ℚ,
      (find_extreme_moves c min_pct none noise_pct).filter
          (fun s => |s.pct| = k)
        = ((find_spans c noise_pct).filter (fun s => min_pct ≤ |s.pct|)).filter
            (fun s => |s.pct| = k)) ∧
    (∀ n : Nat, find_extreme_moves c min_pct (some n) noise_pct =
      (find_extreme_moves c min_pct none noise_pct).take n) := by
  refine ⟨List.perm_insertionSort span_ge _, List.sorted_insertionSort span_ge _,
    ?_, fun n => rfl⟩
  intro k
  show (List.insertionSort span_ge
    ((find_spans c noise_pct).filter (fun s => min_pct ≤ |s.pct|))).filter
      (fun s => |s.pct| = k) = _
  rw [filter_insertionSort span_ge]
  apply List.Sorted.insertionSort_eq
  apply List.pairwise_of_forall_mem_list
  intro a ha b hb
  have hak : |a.pct| = k := by simpa using List.of_mem_filter ha
  have hbk : |b.pct| = k := by simpa using List.of_mem_filter hb
  unfold span_ge
  rw [hak, hbk]

/-! ## C7 -/

set_option maxHeartbeats 1000000 in
/-- C7: raising the `min_pct` threshold (all other parameters equal, any
`top_n`) only shrinks the result — every span returned for the larger
threshold is also returned for the smaller one. -/
theorem min_pct_monotone_subset (c : List ℚ) (noise_pct : ℚ)
    (top_n : Option Nat) (m1 m2 : ℚ) (h12 : m1 ≤ m2) :
    ∀ sp ∈ find_extreme_moves c m2 top_n noise_pct,
      sp ∈ find_extreme_moves c m1 top_n noise_pct := by
  intro sp hsp
  have hfil : (find_spans c noise_pct).filter (fun s => m2 ≤ |s.pct|)
      = ((find_spans c noise_pct).filter (fun s => m1 ≤ |s.pct|)).filter
          (fun s => m2 ≤ |s.pct|) := by
    rw [List.filter_filter]
    apply List.filter_congr
    intro x _
    by_cases h2 : m2 ≤ |x.pct|
    · simp [h2, le_trans h12 h2]
    · simp [h2]
  have hsorted : ((find_spans c noise_pct).filter
        (fun s => m2 ≤ |s.pct|)).insertionSort span_ge
      = (((find_spans c noise_pct).filter
          (fun s => m1 ≤ |s.pct|)).insertionSort span_ge).filter
            (fun s => m2 ≤ |s.pct|) := by
    rw [hfil, ← filter_insertionSort span_ge]
  have hup : ∀ a b : SpanRec, span_ge a b →
      decide (m2 ≤ |b.pct|) = true → decide (m2 ≤ |a.pct|) = true := by
    intro a b hab hb
    simp only [decide_eq_true_eq] at hb ⊢
    exact le_trans hb hab
  have htw := filter_eq_takeWhile_of_sorted span_ge
    (fun s => decide (m2 ≤ |s.pct|)) hup
    (((find_spans c noise_pct).filter
      (fun s => m1 ≤ |s.pct|)).insertionSort span_ge)
    (List.sorted_insertionSort span_ge _)
  rcases top_n with _ | n
  · have hmem : sp ∈ (((find_spans c noise_pct).filter
        (fun s => m1 ≤ |s.pct|)).insertionSort span_ge).filter
          (fun s => m2 ≤ |s.pct|) := by
      rw [← hsorted]
      exact hsp
    exact List.mem_of_mem_filter hmem
  · have hsp2 : sp ∈ ((((find_spans c noise_pct).filter
        (fun s => m1 ≤ |s.pct|)).insertionSort span_ge).filter
          (fun s => m2 ≤ |s.pct|)).take n := by
      rw [← hsorted]
      exact hsp
    rw [htw] at hsp2
    have e1 : find_extreme_moves c m1 (some n) noise_pct
        = (((find_spans c noise_pct).filter
            (fun s => m1 ≤ |s.pct|)).insertionSort span_ge).take n := rfl
    rw [e1]
    obtain ⟨t, ht⟩ := List.takeWhile_prefix
      (l := ((find_spans c noise_pct).filter
        (fun s => m1 ≤ |s.pct|)).insertionSort span_ge)
      (fun s => decide (m2 ≤ |s.pct|))
    rw [← ht, List.take_append_eq_append_take]
    exact List.mem_append_left _ hsp2

/-- C7 witness: thresholds 5 ≤ 6 on the `cex_closes` series. -/
theorem min_pct_monotone_subset_witness :
    (5 : ℚ) ≤ 6 ∧
    ∀ sp ∈ find_extreme_moves cex_closes 6 none 0,
      sp ∈ find_extreme_moves cex_closes 5 none 0 :=
  ⟨by norm_num, min_pct_monotone_subset cex_closes 0 none 5 6 (by norm_num)⟩

/-! ## Day-sign lemmas for the segmentation loop -/

theorem day_sign_zero_iff (c : List ℚ) (i : Nat) :
    day_sign c i = 0 ↔ daily_pct c i = 0 := by
  unfold day_sign
  split_ifs with h1 h2
  · simp [ne_of_gt h1]
  · simp [ne_of_lt h2]
  · simp [le_antisymm (not_lt.mp h1) (not_lt.mp h2)]

theorem day_sign_cases (c : List ℚ) (i : Nat) :
    day_sign c i = 1 ∨ day_sign c i = -1 ∨ day_sign c i = 0 := by
  unfold day_sign
  split_ifs <;> simp

theorem step_sign_eq (c : List ℚ) (i : Nat) (h : daily_pct c i ≠ 0) :
    (if 0 < daily_pct c i then (1 : ℤ) else -1) = day_sign c i := by
  unfold day_sign
  rcases lt_trichotomy (daily_pct c i) 0 with hlt | heq | hgt
  · simp [hlt, lt_asymm hlt]
  · exact absurd heq h
  · simp [hgt]

theorem opposite_int_sign (a b : ℤ) (ha : a = 1 ∨ a = -1) (hb : b = 1 ∨ b = -1)
    (hne : a ≠ b) : a = -b := by
  rcases ha with rfl | rfl <;> rcases hb with rfl | rfl <;> first | rfl | simp at hne ⊢


/-! ## Step characterisation of the segmentation loop -/

theorem seg_step_zero (c : List ℚ) (noise_pct : ℚ) (st : SegState) (idx : Nat)
    (pct : ℚ) (h : pct = 0) : seg_step c noise_pct st idx pct = st := by
  simp [seg_step, h]

theorem seg_step_open (c : List ℚ) (noise_pct : ℚ) (st : SegState) (idx : Nat)
    (pct : ℚ) (h0 : st.prev_sign = 0) (hnz : pct ≠ 0)
    (hss : st.span_start = none) :
    seg_step c noise_pct st idx pct =
      { spans := st.spans, span_start := some idx,
        prev_sign := if 0 < pct then 1 else -1, prev_idx := idx } := by
  simp only [seg_step]
  rw [if_neg hnz, if_neg (fun hcond => hcond.2 h0), hss]

theorem seg_step_extend (c : List ℚ) (noise_pct : ℚ) (st : SegState) (idx : Nat)
    (pct : ℚ) (hsame : (if 0 < pct then (1 : ℤ) else -1) = st.prev_sign)
    (hnz : pct ≠ 0) (s : Nat) (hss : st.span_start = some s) :
    seg_step c noise_pct st idx pct =
      { spans := st.spans, span_start := some s, prev_sign := st.prev_sign,
        prev_idx := idx } := by
  simp only [seg_step]
  rw [if_neg hnz, if_neg (fun hcond => hcond.1 hsame), hss, hsame]

theorem seg_step_noise (c : List ℚ) (noise_pct : ℚ) (st : SegState) (idx : Nat)
    (pct : ℚ) (hdiff : (if 0 < pct then (1 : ℤ) else -1) ≠ st.prev_sign)
    (hps : st.prev_sign ≠ 0) (hnz : pct ≠ 0) (hnoise : |pct| ≤ noise_pct) :
    seg_step c noise_pct st idx pct =
      { spans := st.spans, span_start := st.span_start,
        prev_sign := st.prev_sign, prev_idx := idx } := by
  simp only [seg_step]
  rw [if_neg hnz, if_pos ⟨hdiff, hps⟩, if_pos hnoise]

theorem seg_step_reversal (c : List ℚ) (noise_pct : ℚ) (st : SegState)
    (idx : Nat) (pct : ℚ)
    (hdiff : (if 0 < pct then (1 : ℤ) else -1) ≠ st.prev_sign)
    (hps : st.prev_sign ≠ 0) (hnz : pct ≠ 0) (hbig : ¬ |pct| ≤ noise_pct)
    (s : Nat) (hss : st.span_start = some s) :
    seg_step c noise_pct st idx pct =
      { spans := st.spans ++ [make_span c s st.prev_idx],
        span_start := some idx,
        prev_sign := if 0 < pct then 1 else -1, prev_idx := idx } := by
  simp only [seg_step]
  rw [if_neg hnz, if_pos ⟨hdiff, hps⟩, if_neg hbig, hss]

/-! ## The segmentation invariant (noise_pct = 0) -/

theorem seg_invariant_step (c : List ℚ) (i : Nat) (st : SegState)
    (h : seg_invariant c i st) :
    seg_invariant c (i + 1) (seg_step c 0 st i (daily_pct c i)) := by
  by_cases hz : daily_pct c i = 0
  · rw [seg_step_zero c 0 st i _ hz]
    rcases h with h0 | ⟨s, hss, hps, hpi, hrun, hgap, hclosed, hchain, hlink⟩
    · exact Or.inl h0
    · refine Or.inr ⟨s, hss, hps, Nat.lt_succ_of_lt hpi, hrun, ?_,
        hclosed, hchain, hlink⟩
      intro j hj1 hj2
      rcases Nat.lt_succ_iff_lt_or_eq.mp hj2 with hj | rfl
      · exact hgap j hj1 hj
      · exact hz
  · have hsg := step_sign_eq c i hz
    have hsgnz : day_sign c i ≠ 0 := fun h0 => hz ((day_sign_zero_iff c i).mp h0)
    rcases h with ⟨h0, hss, hsp⟩ | ⟨s, hss, hps, hpi, hrun, hgap, hclosed, hchain, hlink⟩
    · rw [seg_step_open c 0 st i _ h0 hz hss]
      refine Or.inr ⟨i, rfl, ?_, Nat.lt_succ_self i, ?_, ?_, ?_, ?_, ?_⟩
      · rw [hsg]; exact hsgnz
      · exact ⟨le_refl i, by rw [hsg]; exact hsgnz, hsg.symm, hsg.symm,
          fun j hj1 hj2 => Or.inl (by
            have hji : j = i := le_antisymm hj2 hj1
            rw [hji]; exact hsg.symm)⟩
      · intro j hj1 hj2
        dsimp only at hj1
        omega
      · rw [hsp]; intro sp hsp2; simp at hsp2
      · rw [hsp]; exact List.chain'_nil
      · rw [hsp]; intro lsp hlsp; simp at hlsp
    · by_cases hsame : (if 0 < daily_pct c i then (1 : ℤ) else -1) = st.prev_sign
      · rw [seg_step_extend c 0 st i _ hsame hz s hss]
        refine Or.inr ⟨s, rfl, hps, Nat.lt_succ_self i, ?_, ?_,
          hclosed, hchain, hlink⟩
        · obtain ⟨hse, hσ, hds, hde, hint⟩ := hrun
          have hdi : day_sign c i = st.prev_sign := by rw [← hsg, hsame]
          refine ⟨le_trans hse (le_of_lt hpi), hσ, hds, hdi, ?_⟩
          intro j hj1 hj2
          rcases Nat.lt_or_ge j st.prev_idx with hj | hj
          · exact hint j hj1 (le_of_lt hj)
          · rcases Nat.eq_or_lt_of_le hj with heq | hj'
            · exact hint j hj1 (le_of_eq heq.symm)
            · rcases Nat.lt_or_ge j i with hji | hji
              · right
                rw [day_sign_zero_iff]
                exact hgap j hj' hji
              · have hjeq : j = i := le_antisymm hj2 hji
                rw [hjeq]
                exact Or.inl hdi
        · intro j hj1 hj2
          dsimp only at hj1
          omega
      · have hσs : day_sign c s = st.prev_sign := hrun.2.2.1
        have hσcases : st.prev_sign = 1 ∨ st.prev_sign = -1 := by
          rcases day_sign_cases c s with h1 | h1 | h1
          · exact Or.inl (hσs.symm.trans h1)
          · exact Or.inr (hσs.symm.trans h1)
          · exact absurd (hσs.symm.trans h1) hps
        have hicases : day_sign c i = 1 ∨ day_sign c i = -1 := by
          rcases day_sign_cases c i with h1 | h1 | h1
          exacts [Or.inl h1, Or.inr h1, absurd h1 hsgnz]
        have hopp : day_sign c i = -st.prev_sign :=
          opposite_int_sign _ _ hicases hσcases
            (fun he => hsame (hsg.trans he))
        rw [seg_step_reversal c 0 st i _ hsame hps hz
          (by rw [abs_nonpos_iff]; exact hz) s hss]
        refine Or.inr ⟨i, rfl, ?_, Nat.lt_succ_self i, ?_, ?_, ?_, ?_, ?_⟩
        · rw [hsg]; exact hsgnz
        · exact ⟨le_refl i, by rw [hsg]; exact hsgnz, hsg.symm, hsg.symm,
            fun j hj1 hj2 => Or.inl (by
              have hji : j = i := le_antisymm hj2 hj1
              rw [hji]; exact hsg.symm)⟩
        · intro j hj1 hj2
          dsimp only at hj1
          omega
        · intro sp hsp2
          rcases List.mem_append.mp hsp2 with hmem | hmem
          · exact hclosed sp hmem
          · have hsp3 : sp = make_span c s st.prev_idx := List.mem_singleton.mp hmem
            subst hsp3
            rw [show (make_span c s st.prev_idx).start_date = s from rfl,
              show (make_span c s st.prev_idx).end_date = st.prev_idx from rfl,
              hσs]
            exact hrun
        · rw [List.chain'_append]
          refine ⟨hchain, List.chain'_singleton _, ?_⟩
          intro x hx y hy
          have hy' : y = make_span c s st.prev_idx := by
            have := hy
            simp only [List.head?_cons, Option.mem_def, Option.some_inj] at this
            exact this.symm
          subst hy'
          rw [show (make_span c s st.prev_idx).start_date = s from rfl, hσs,
            hlink x (Option.mem_def.mp hx), neg_neg]
        · intro lsp hlsp
          rw [List.getLast?_concat] at hlsp
          have hlsp2 : lsp = make_span c s st.prev_idx :=
            (Option.some_inj.mp hlsp).symm
          subst hlsp2
          rw [show (make_span c s st.prev_idx).start_date = s from rfl, hσs,
            hsg, hopp, neg_neg]

theorem seg_invariant_fold (c : List ℚ) :
    ∀ (k i : Nat) (st : SegState), seg_invariant c i st →
      seg_invariant c (i + k)
        ((List.range' i k).foldl
          (fun st i => seg_step c 0 st i (daily_pct c i)) st)
  | 0, i, st, h => by simpa using h
  | k + 1, i, st, h => by
    rw [List.range'_succ, List.foldl_cons]
    have h2 := seg_invariant_fold c k (i + 1)
      (seg_step c 0 st i (daily_pct c i)) (seg_invariant_step c i st h)
    have hadd : i + (k + 1) = (i + 1) + k := by omega
    rw [hadd]
    exact h2

theorem find_spans_ok (c : List ℚ) :
    (∀ sp ∈ find_spans c 0,
      run_ok c sp.start_date sp.end_date (day_sign c sp.start_date)) ∧
    (find_spans c 0).Chain'
      (fun a b => day_sign c b.start_date = -day_sign c a.start_date) := by
  have hinv := seg_invariant_fold c (c.length - 1) 1 ⟨[], none, 0, 0⟩
    (Or.inl ⟨rfl, rfl, rfl⟩)
  rcases hinv with ⟨h0, hss, hsp⟩ | ⟨s, hss, hps, hpi, hrun, hgap, hclosed, hchain, hlink⟩
  · have hfs : find_spans c 0 =
        ((List.range' 1 (c.length - 1)).foldl
          (fun st i => seg_step c 0 st i (daily_pct c i)) ⟨[], none, 0, 0⟩).spans := by
      simp only [find_spans]
      rw [hss]
    rw [hfs, hsp]
    exact ⟨fun sp h => absurd h (List.not_mem_nil sp), List.chain'_nil⟩
  · have hfs : find_spans c 0 =
        ((List.range' 1 (c.length - 1)).foldl
            (fun st i => seg_step c 0 st i (daily_pct c i)) ⟨[], none, 0, 0⟩).spans ++
          [make_span c s
            ((List.range' 1 (c.length - 1)).foldl
              (fun st i => seg_step c 0 st i (daily_pct c i))
              ⟨[], none, 0, 0⟩).prev_idx] := by
      simp only [find_spans]
      rw [hss]
    have hσs : day_sign c s =
        ((List.range' 1 (c.length - 1)).foldl
          (fun st i => seg_step c 0 st i (daily_pct c i))
          ⟨[], none, 0, 0⟩).prev_sign := hrun.2.2.1
    rw [hfs]
    constructor
    · intro sp hsp2
      rcases List.mem_append.mp hsp2 with hmem | hmem
      · exact hclosed sp hmem
      · obtain rfl := List.mem_singleton.mp hmem
        exact hσs.symm ▸ hrun
    · rw [List.chain'_append]
      refine ⟨hchain, List.chain'_singleton _, ?_⟩
      intro x hx y hy
      have hy2 := hy
      simp only [List.head?_cons, Option.mem_def, Option.some_inj] at hy2
      obtain rfl := hy2
      show day_sign c s = -day_sign c x.start_date
      rw [hσs, hlink x (Option.mem_def.mp hx), neg_neg]

theorem mem_find_extreme_moves (c : List ℚ) (min_pct : ℚ) (top_n : Option Nat)
    (noise_pct : ℚ) :
    ∀ sp ∈ find_extreme_moves c min_pct top_n noise_pct,
      sp ∈ find_spans c noise_pct := by
  intro sp h
  rcases top_n with _ | n
  · have e0 : find_extreme_moves c min_pct none noise_pct =
        ((find_spans c noise_pct).filter
          (fun s => min_pct ≤ |s.pct|)).insertionSort span_ge := rfl
    rw [e0] at h
    exact List.mem_of_mem_filter ((List.mem_insertionSort span_ge).mp h)
  · have e1 : find_extreme_moves c min_pct (some n) noise_pct =
        (((find_spans c noise_pct).filter
          (fun s => min_pct ≤ |s.pct|)).insertionSort span_ge).take n := rfl
    rw [e1] at h
    exact List.mem_of_mem_filter
      ((List.mem_insertionSort span_ge).mp (List.take_subset n _ h))

/-! ## C2 -/

/-- C2, counterexample: with `noise_pct = 0` (closes `cex_closes`, daily
changes +10%, 0%, +10%, −5%, +10%, `min_pct = 6`) the returned result is
two chronologically adjacent spans that BOTH move up (the −5% span in
between is filtered out), and the first returned span contains an internal
flat day (day 2, zero change) — refuting both halves of the claim as
stated. -/
theorem returned_spans_same_sign_adjacent :
    find_extreme_moves cex_closes 6 none 0 =
      [make_span cex_closes 1 3, make_span cex_closes 5 5] ∧
    daily_pct cex_closes 2 = 0 ∧
    (make_span cex_closes 1 3).start_date < 2 ∧
    2 < (make_span cex_closes 1 3).end_date ∧
    (make_span cex_closes 1 3).start_date <
      (make_span cex_closes 5 5).start_date ∧
    0 < (make_span cex_closes 1 3).pct ∧
    0 < (make_span cex_closes 5 5).pct := by
  have h1 : find_spans cex_closes 0 = [make_span cex_closes 1 3,
      make_span cex_closes 4 4, make_span cex_closes 5 5] := by
    norm_num [find_spans, seg_step, daily_pct, get_close, List.range',
      abs_le, cex_closes]
  have h2 : find_extreme_moves cex_closes 6 none 0 =
      [make_span cex_closes 1 3, make_span cex_closes 5 5] := by
    have e0 : find_extreme_moves cex_closes 6 none 0 =
        ((find_spans cex_closes 0).filter
          (fun s => 6 ≤ |s.pct|)).insertionSort span_ge := rfl
    rw [e0, h1]
    norm_num [make_span, round2, round_half_even, Int.fract, get_close,
      cex_closes, List.insertionSort, List.orderedInsert, span_ge, abs_le]
  refine ⟨h2, ?_, ?_, ?_, ?_, ?_, ?_⟩ <;>
    norm_num [make_span, daily_pct, get_close, round2, round_half_even,
      Int.fract, cex_closes, abs_le]

/-- C2 (amended): for every series with at least two points and
`noise_pct = 0` (any `min_pct`, any `top_n`): every returned span starts
and ends on a day with a nonzero daily change, and every day of the span
has a daily change that is zero (a skipped flat day) or of the span's
start-day direction; and any two chronologically adjacent spans of the
full segmentation (the span sequence before threshold filtering and
ranking) have opposite directions. -/
theorem segmentation_sign_invariants (c : List ℚ) (hc : 2 ≤ c.length)
    (min_pct : ℚ) (top_n : Option Nat) :
    (∀ sp ∈ find_extreme_moves c min_pct top_n 0,
      daily_pct c sp.start_date ≠ 0 ∧
      daily_pct c sp.end_date ≠ 0 ∧
      ∀ j, sp.start_date ≤ j → j ≤ sp.end_date →
        daily_pct c j = 0 ∨ day_sign c j = day_sign c sp.start_date) ∧
    (find_spans c 0).Chain'
      (fun a b => day_sign c b.start_date = -day_sign c a.start_date) := by
  obtain ⟨hall, hchain⟩ := find_spans_ok c
  refine ⟨?_, hchain⟩
  intro sp hsp
  obtain ⟨hle, hσ, hs, he, hint⟩ :=
    hall sp (mem_find_extreme_moves c min_pct top_n 0 sp hsp)
  refine ⟨?_, ?_, ?_⟩
  · intro h0
    exact hσ (hs.symm.trans ((day_sign_zero_iff c sp.start_date).mpr h0))
  · intro h0
    rw [(day_sign_zero_iff c sp.end_date).mpr h0] at he
    exact hσ (hs.symm.trans (hs.trans he.symm))
  · intro j hj1 hj2
    rcases hint j hj1 hj2 with h | h
    · exact Or.inr (h.trans hs.symm)
    · exact Or.inl ((day_sign_zero_iff c j).mp h)

/-- C2 witness: the amended statement instantiated on the concrete
`cex_closes` series. -/
theorem segmentation_sign_invariants_witness :
    2 ≤ cex_closes.length ∧
    ((∀ sp ∈ find_extreme_moves cex_closes 6 none 0,
      daily_pct cex_closes sp.start_date ≠ 0 ∧
      daily_pct cex_closes sp.end_date ≠ 0 ∧
      ∀ j, sp.start_date ≤ j → j ≤ sp.end_date →
        daily_pct cex_closes j = 0 ∨
          day_sign cex_closes j = day_sign cex_closes sp.start_date) ∧
    (find_spans cex_closes 0).Chain'
      (fun a b =>
        day_sign cex_closes b.start_date = -day_sign cex_closes a.start_date)) :=
  ⟨by norm_num [cex_closes],
    segmentation_sign_invariants cex_closes (by norm_num [cex_closes]) 6 none⟩

/-! ## C1 -/

/-- C1: while the segmentation loop has an open span (`span_start` set) and
a tracked sign, a day whose daily change has the opposite sign and
magnitude at most `noise_pct` is absorbed as noise: no span is closed
(`spans` unchanged), the sign is not flipped (`prev_sign` unchanged), the
open span stays open (`span_start` unchanged), and the day is included in
the still-open span (it becomes the span's current last day `prev_idx`).
Concretely, daily changes [+2%, −0.5%, +3%, −6%] with `noise_pct = 1`
segment into one span covering days 1–3 (the −0.5% day absorbed, 3 trading
days) followed by a second span for the −6% day. -/
theorem noise_absorption (c : List ℚ) (noise_pct pct_val : ℚ) (st : SegState)
    (idx s : Nat) (hopen : st.span_start = some s) (hsign : st.prev_sign ≠ 0)
    (hopp : (if 0 < pct_val then (1 : ℤ) else -1) ≠ st.prev_sign)
    (hnz : pct_val ≠ 0) (hnoise : |pct_val| ≤ noise_pct) :
    seg_step c noise_pct st idx pct_val =
      { spans := st.spans, span_start := some s, prev_sign := st.prev_sign,
        prev_idx := idx } ∧
    daily_pct example_closes 1 = 2 ∧
    daily_pct example_closes 2 = -1/2 ∧
    daily_pct example_closes 3 = 3 ∧
    daily_pct example_closes 4 = -6 ∧
    find_spans example_closes 1 =
      [make_span example_closes 1 3, make_span example_closes 4 4] ∧
    (make_span example_closes 1 3).start_date = 1 ∧
    (make_span example_closes 1 3).end_date = 3 ∧
    (make_span example_closes 1 3).days = 3 ∧
    (make_span example_closes 4 4).start_date = 4 ∧
    (make_span example_closes 4 4).end_date = 4 ∧
    (make_span example_closes 4 4).pct = -6 := by
  refine ⟨?_, ?_, ?_, ?_, ?_, ?_, rfl, rfl, rfl, rfl, rfl, ?_⟩
  · rw [seg_step_noise c noise_pct st idx pct_val hopp hsign hnz hnoise, hopen]
  · norm_num [daily_pct, get_close, example_closes]
  · norm_num [daily_pct, get_close, example_closes]
  · norm_num [daily_pct, get_close, example_closes]
  · norm_num [daily_pct, get_close, example_closes]
  · norm_num [find_spans, seg_step, daily_pct, get_close, List.range',
      abs_le, example_closes]
  · norm_num [make_span, round2, round_half_even, Int.fract, get_close,
      example_closes]

/-- C1 witness: the absorption step applied to the −0.5% day of the
concrete example (state after day 1: open span at day 1, sign +1). -/
theorem noise_absorption_witness :
    ((⟨[], some 1, 1, 1⟩ : SegState).span_start = some 1) ∧
    ((⟨[], some 1, 1, 1⟩ : SegState).prev_sign ≠ 0) ∧
    ((if 0 < (-1/2 : ℚ) then (1 : ℤ) else -1) ≠
      (⟨[], some 1, 1, 1⟩ : SegState).prev_sign) ∧
    ((-1/2 : ℚ) ≠ 0) ∧
    (|(-1/2 : ℚ)| ≤ 1) ∧
    (seg_step example_closes 1 ⟨[], some 1, 1, 1⟩ 2 (-1/2) =
      { spans := [], span_start := some 1, prev_sign := 1, prev_idx := 2 } ∧
     daily_pct example_closes 1 = 2 ∧
     daily_pct example_closes 2 = -1/2 ∧
     daily_pct example_closes 3 = 3 ∧
     daily_pct example_closes 4 = -6 ∧
     find_spans example_closes 1 =
       [make_span example_closes 1 3, make_span example_closes 4 4] ∧
     (make_span example_closes 1 3).start_date = 1 ∧
     (make_span example_closes 1 3).end_date = 3 ∧
     (make_span example_closes 1 3).days = 3 ∧
     (make_span example_closes 4 4).start_date = 4 ∧
     (make_span example_closes 4 4).end_date = 4 ∧
     (make_span example_closes 4 4).pct = -6) :=
  ⟨rfl, by norm_num, by norm_num, by norm_num, by rw [abs_le]; norm_num,
    noise_absorption example_closes 1 (-1/2) ⟨[], some 1, 1, 1⟩ 2 1 rfl
      (by norm_num) (by norm_num) (by norm_num) (by rw [abs_le]; norm_num)⟩
